import Mathlib

/-!
Verification of the climock (mockoho) mediation engine against a shallow
embedding of the Go source in `src/internal`: route matching and parameter
extraction (`src/internal/mock/mock.go`), template-based response rendering
(`processResponseBody` / `GenerateResponse`), the per-request dispatch
(`src/internal/server/server.go` `handleRequest`), and proxy target
management and path rewriting (`src/internal/proxy/proxy.go`).

Strings are manipulated through their underlying character lists so that
every definition is structurally recursive and kernel-computable.
-/

/-- Character-list split on the separator `/`, mirroring Go
`strings.Split(s, "/")` for the one-character separator used by
`pathMatches` and `ExtractParams` (mock.go lines 44, 57-58, 81-82):
the empty string yields `[""]`, and leading/trailing separators yield
empty segments. -/
def splitSeg : List Char → List (List Char)
  | [] => [[]]
  | '/' :: rest => [] :: splitSeg rest
  | c :: rest =>
    match splitSeg rest with
    | [] => [[c]]
    | s :: ss => (c :: s) :: ss

/-- Go `strings.Split(s, "/")`. -/
def goSplitSlash (s : String) : List String := (splitSeg s.data).map (fun cs => ⟨cs⟩)

/-- Go `strings.HasPrefix(s, ":")` (mock.go lines 48, 65, 85). -/
def hasColonHd (s : String) : Bool :=
  match s.data with
  | ':' :: _ => true
  | _ => false

/-- Go `s[1:]` applied to a segment beginning with the one-byte character
`:` (mock.go line 86, `paramName := patternParts[i][1:]`). -/
def dropHd (s : String) : String := ⟨s.data.drop 1⟩

mutual
/-- JSON-shaped value: the type of a mock response body
(`Response.Body interface{}` in `src/internal/config/config.go` line 67).
Go's `encoding/json` decodes a body into `nil`, `bool`, `float64`,
`string`, `[]interface{}` or `map[string]interface{}`; a number is kept
here as its decimal text (Go re-marshals a `float64` with its shortest
round-trip decimal, so that text is the value's canonical form).
Object members are the list of entries in the order Go's marshaller
emits them. -/
inductive Json where
  | null : Json
  | jbool (b : Bool) : Json
  | jnum (s : String) : Json
  | jstr (s : String) : Json
  | jarr (xs : JsonList) : Json
  | jobj (kvs : JsonMembers) : Json
  deriving DecidableEq
inductive JsonList where
  | nil : JsonList
  | cons (hd : Json) (tl : JsonList) : JsonList
  deriving DecidableEq
inductive JsonMembers where
  | nil : JsonMembers
  | cons (key : String) (val : Json) (tl : JsonMembers) : JsonMembers
  deriving DecidableEq
end

/-- A mock response variant (`config.Response`, config.go lines 64-69). -/
structure Response where
  status : Int
  headers : List (String × String)
  body : Json
  delay : Int
  deriving DecidableEq

/-- A mock endpoint (`config.Endpoint`, config.go lines 54-61). The Go
`Responses map[string]Response` is embedded as an association list with
distinct keys (Go maps cannot hold duplicate keys). -/
structure Endpoint where
  id : String
  method : String
  path : String
  active : Bool
  defaultResponse : String
  responses : List (String × Response)
  deriving DecidableEq

/-- A feature group (`config.FeatureConfig`, config.go lines 48-51):
a name plus an ordered slice of endpoints. -/
structure FeatureConfig where
  feature : String
  endpoints : List Endpoint
  deriving DecidableEq

/-- Go map lookup `m[k]` on an association-list embedding of a
`map[string]V`. -/
def lookupStr {α : Type} : List (String × α) → String → Option α
  | [], _ => none
  | (k, v) :: rest, key => if k = key then some v else lookupStr rest key

/-- Go map assignment `m[k] = v` on the association-list embedding:
replaces the binding in place if the key is present, appends otherwise. -/
def mapSet {α : Type} : List (String × α) → String → α → List (String × α)
  | [], key, v => [(key, v)]
  | (k, w) :: rest, key, v =>
    if k = key then (key, v) :: rest else (k, w) :: mapSet rest key v

/-- The segment-by-segment comparison loop of `pathMatches`
(mock.go lines 64-72): a pattern segment beginning with `:` is skipped
(`continue`), any other segment must equal the path segment, and the
loop runs over segment lists already known to have equal length. -/
def segsMatch : List String → List String → Bool
  | [], [] => true
  | p :: ps, q :: qs => (hasColonHd p || p = q) && segsMatch ps qs
  | _, _ => false

/-- `pathMatches` (mock.go lines 42-75): split both the pattern and the
path on `/`; reject if segment counts differ (lines 60-62); otherwise
run the segment walk. (Lines 43-54 build an unused regex slice; they have
no effect on the result and are omitted.) -/
def pathMatches (pattern path : String) : Bool :=
  let patternParts := goSplitSlash pattern
  let pathParts := goSplitSlash path
  if patternParts.length ≠ pathParts.length then false
  else segsMatch patternParts pathParts

/-- The inner loop of `FindEndpoint` (mock.go lines 30-35): scan one
feature's endpoint slice in order, returning the first endpoint whose
method equals the request method and whose pattern matches the path. -/
def findInFeature (feature : String) : List Endpoint → String → String → Option (Endpoint × String)
  | [], _, _ => none
  | e :: rest, method, path =>
    if e.method = method && pathMatches e.path path then some (e, feature)
    else findInFeature feature rest method path

/-- `FindEndpoint` (mock.go lines 28-39). `Config.Mocks` is a Go
`map[string]FeatureConfig`; a Go `range` over a map visits its entries in
an unspecified (runtime-randomized) order, so the embedding takes the
enumeration the runtime produced as an explicit list of entries.
Go's `(nil, "", error)` no-match result is embedded as `none`. -/
def FindEndpoint : List (String × FeatureConfig) → String → String → Option (Endpoint × String)
  | [], _, _ => none
  | (feature, featureConfig) :: rest, method, path =>
    match findInFeature feature featureConfig.endpoints method path with
    | some r => some r
    | none => FindEndpoint rest method path

/-- The loop of `ExtractParams` (mock.go lines 84-89), walking the two
segment lists in step and performing the Go map assignment
`params[paramName] = pathParts[i]` at each `:`-prefixed pattern segment.
(When the path has fewer segments than the pattern the Go code would
panic on `pathParts[i]`; the callers in this development only invoke it
on pairs of equal segment count, as the Dispatcher does.) -/
def extractLoop : List String → List String → List (String × String) → List (String × String)
  | p :: ps, q :: qs, acc =>
    if hasColonHd p then extractLoop ps qs (mapSet acc (dropHd p) q)
    else extractLoop ps qs acc
  | _, _, acc => acc

/-- `ExtractParams` (mock.go lines 78-92). -/
def ExtractParams (pattern path : String) : List (String × String) :=
  extractLoop (goSplitSlash pattern) (goSplitSlash path) []

/-! ## JSON marshalling (Go `encoding/json`)

`processResponseBody` (mock.go lines 114-150) serializes the body with
`json.Marshal`, renders the text as a template, and parses the result
back with `json.Unmarshal`. The encoder below reproduces Go's escaping
(HTML-escaping on by default: `<`, `>`, `&` become `<`, `>`,
`&`; control characters other than `\n`, `\r`, `\t` become
`\u00XX`; U+2028/U+2029 are escaped). Go marshals a `map` with sorted
keys; `JsonMembers` carries the members in the emitted order, so the
equality results below are unaffected by the sort. -/

/-- Lower-case hexadecimal digit, as Go's encoder emits. -/
def hexDig (n : Nat) : Char := if n < 10 then Char.ofNat (48 + n) else Char.ofNat (87 + n)

/-- One character of a JSON string, escaped as by Go's `encoding/json`
encoder (with its default HTML escaping). -/
def escChar (c : Char) : List Char :=
  if c = '"' then ['\\', '"']
  else if c = '\\' then ['\\', '\\']
  else if c = '\n' then ['\\', 'n']
  else if c = '\r' then ['\\', 'r']
  else if c = '\t' then ['\\', 't']
  else if c.toNat < 32 then ['\\', 'u', '0', '0', hexDig (c.toNat / 16), hexDig (c.toNat % 16)]
  else if c = '<' then ['\\', 'u', '0', '0', '3', 'c']
  else if c = '>' then ['\\', 'u', '0', '0', '3', 'e']
  else if c = '&' then ['\\', 'u', '0', '0', '2', '6']
  else if c.toNat = 8232 then ['\\', 'u', '2', '0', '2', '8']
  else if c.toNat = 8233 then ['\\', 'u', '2', '0', '2', '9']
  else [c]

/-- Escape a whole character sequence. -/
def escList : List Char → List Char
  | [] => []
  | c :: cs => escChar c ++ escList cs

mutual
/-- `json.Marshal` on a decoded JSON value. -/
def jsonMarshal : Json → List Char
  | Json.null => "null".data
  | Json.jbool true => "true".data
  | Json.jbool false => "false".data
  | Json.jnum s => s.data
  | Json.jstr s => '"' :: (escList s.data ++ ['"'])
  | Json.jarr xs => '[' :: (marshalElems xs ++ [']'])
  | Json.jobj kvs => '{' :: (marshalMembers kvs ++ ['}'])
/-- Comma-separated marshalled array elements. -/
def marshalElems : JsonList → List Char
  | JsonList.nil => []
  | JsonList.cons x xs => jsonMarshal x ++ sepElems xs
/-- Remaining array elements, each preceded by a comma. -/
def sepElems : JsonList → List Char
  | JsonList.nil => []
  | JsonList.cons x xs => ',' :: (jsonMarshal x ++ sepElems xs)
/-- Comma-separated marshalled object members. -/
def marshalMembers : JsonMembers → List Char
  | JsonMembers.nil => []
  | JsonMembers.cons k v kvs => ('"' :: (escList k.data ++ ['"'])) ++ ':' :: (jsonMarshal v ++ sepMembers kvs)
/-- Remaining object members, each preceded by a comma. -/
def sepMembers : JsonMembers → List Char
  | JsonMembers.nil => []
  | JsonMembers.cons k v kvs => ',' :: (('"' :: (escList k.data ++ ['"'])) ++ ':' :: (jsonMarshal v ++ sepMembers kvs))
end

/-- Characters a JSON number token may contain. -/
def isNumChar (c : Char) : Bool :=
  c.isDigit || c = '-' || c = '+' || c = '.' || c = 'e' || c = 'E'

/-- A character that can begin a JSON number value. -/
def isNumStart (c : Char) : Bool := c = '-' || c.isDigit

/-- The number text stored in a `Json.jnum` is a well-formed token: it is
nonempty, begins with `-` or a digit, and uses only number characters.
Every number Go's marshaller emits satisfies this. -/
def numTokOk (s : String) : Bool :=
  match s.data with
  | [] => false
  | c :: cs => isNumStart c && (c :: cs).all isNumChar

mutual
/-- Well-formedness of an embedded JSON value: every number node holds a
valid number token. -/
def Json.wf : Json → Bool
  | Json.null => true
  | Json.jbool _ => true
  | Json.jnum s => numTokOk s
  | Json.jstr _ => true
  | Json.jarr xs => JsonList.wf xs
  | Json.jobj kvs => JsonMembers.wf kvs
/-- Well-formedness of a list of JSON values. -/
def JsonList.wf : JsonList → Bool
  | JsonList.nil => true
  | JsonList.cons x xs => Json.wf x && JsonList.wf xs
/-- Well-formedness of object members. -/
def JsonMembers.wf : JsonMembers → Bool
  | JsonMembers.nil => true
  | JsonMembers.cons _ v kvs => Json.wf v && JsonMembers.wf kvs
end

/-- JSON whitespace. -/
def isWS (c : Char) : Bool := c = ' ' || c = '\t' || c = '\n' || c = '\r'

/-- Drop leading JSON whitespace. -/
def skipWS : List Char → List Char
  | [] => []
  | c :: cs => if isWS c then skipWS cs else c :: cs

/-- Value of one hexadecimal digit. -/
def hexVal (c : Char) : Option Nat :=
  if c.isDigit then some (c.toNat - 48)
  else if 'a' ≤ c && c ≤ 'f' then some (c.toNat - 87)
  else if 'A' ≤ c && c ≤ 'F' then some (c.toNat - 55)
  else none

/-- Single-character JSON string escapes (the non-`\u` forms). -/
def unescChar (e : Char) : Option Char :=
  if e = '"' then some '"'
  else if e = '\\' then some '\\'
  else if e = '/' then some '/'
  else if e = 'n' then some '\n'
  else if e = 'r' then some '\r'
  else if e = 't' then some '\t'
  else if e = 'b' then some (Char.ofNat 8)
  else if e = 'f' then some (Char.ofNat 12)
  else none

/-- Parse the body of a JSON string literal (after the opening quote),
returning the decoded characters and the remainder after the closing
quote. -/
def parseStrBody : List Char → Option (List Char × List Char)
  | [] => none
  | c :: rest =>
    if c = '"' then some ([], rest)
    else if c = '\\' then
      match rest with
      | [] => none
      | e :: rest2 =>
        if e = 'u' then
          match rest2 with
          | h1 :: h2 :: h3 :: h4 :: r =>
            match hexVal h1, hexVal h2, hexVal h3, hexVal h4 with
            | some a, some b, some cc, some d =>
              (parseStrBody r).map (fun p => (Char.ofNat (a * 4096 + b * 256 + cc * 16 + d) :: p.1, p.2))
            | _, _, _, _ => none
          | _ => none
        else
          match unescChar e with
          | some uc => (parseStrBody rest2).map (fun p => (uc :: p.1, p.2))
          | none => none
    else (parseStrBody rest).map (fun p => (c :: p.1, p.2))

mutual
/-- Fuel-indexed JSON value parser (`json.Unmarshal` into `interface{}`).
The fuel only bounds nesting; `jsonUnmarshalChars` supplies enough for
any input. -/
def parseVal : Nat → List Char → Option (Json × List Char)
  | 0, _ => none
  | Nat.succ fuel, cs =>
    match skipWS cs with
    | [] => none
    | c :: rest =>
      if isNumStart c then
        some (Json.jnum ⟨c :: rest.takeWhile isNumChar⟩, rest.dropWhile isNumChar)
      else if c = '"' then
        match parseStrBody rest with
        | some p => some (Json.jstr ⟨p.1⟩, p.2)
        | none => none
      else if c = 'n' then
        match rest with
        | 'u' :: 'l' :: 'l' :: r => some (Json.null, r)
        | _ => none
      else if c = 't' then
        match rest with
        | 'r' :: 'u' :: 'e' :: r => some (Json.jbool true, r)
        | _ => none
      else if c = 'f' then
        match rest with
        | 'a' :: 'l' :: 's' :: 'e' :: r => some (Json.jbool false, r)
        | _ => none
      else if c = '[' then
        let rest2 := skipWS rest
        if rest2.head? = some ']' then some (Json.jarr JsonList.nil, rest2.tail)
        else parseElems fuel rest2
      else if c = '{' then
        let rest2 := skipWS rest
        if rest2.head? = some '}' then some (Json.jobj JsonMembers.nil, rest2.tail)
        else parseMembers fuel rest2
      else none
/-- Parse the elements of a nonempty JSON array (after `[`). -/
def parseElems : Nat → List Char → Option (Json × List Char)
  | 0, _ => none
  | Nat.succ fuel, cs =>
    match parseVal fuel cs with
    | none => none
    | some (v, rest) =>
      match skipWS rest with
      | ',' :: r =>
        match parseElems fuel r with
        | some (Json.jarr xs, rem) => some (Json.jarr (JsonList.cons v xs), rem)
        | _ => none
      | ']' :: r => some (Json.jarr (JsonList.cons v JsonList.nil), r)
      | _ => none
/-- Parse the members of a nonempty JSON object (after the opening
brace). -/
def parseMembers : Nat → List Char → Option (Json × List Char)
  | 0, _ => none
  | Nat.succ fuel, cs =>
    match skipWS cs with
    | '"' :: rest =>
      match parseStrBody rest with
      | none => none
      | some (kcs, rest2) =>
        match skipWS rest2 with
        | ':' :: rest3 =>
          match parseVal fuel rest3 with
          | none => none
          | some (v, rest4) =>
            match skipWS rest4 with
            | ',' :: r =>
              match parseMembers fuel r with
              | some (Json.jobj kvs, rem) => some (Json.jobj (JsonMembers.cons ⟨kcs⟩ v kvs), rem)
              | _ => none
            | '}' :: r => some (Json.jobj (JsonMembers.cons ⟨kcs⟩ v JsonMembers.nil), r)
            | _ => none
        | _ => none
    | _ => none
end

/-- The branch of `parseVal` after the first significant character `c`
(a restatement of the dispatch body, for stepwise reasoning). -/
def parseValHead (fuel : Nat) (c : Char) (rest : List Char) : Option (Json × List Char) :=
  if isNumStart c then
    some (Json.jnum ⟨c :: rest.takeWhile isNumChar⟩, rest.dropWhile isNumChar)
  else if c = '"' then
    match parseStrBody rest with
    | some p => some (Json.jstr ⟨p.1⟩, p.2)
    | none => none
  else if c = 'n' then
    match rest with
    | 'u' :: 'l' :: 'l' :: r => some (Json.null, r)
    | _ => none
  else if c = 't' then
    match rest with
    | 'r' :: 'u' :: 'e' :: r => some (Json.jbool true, r)
    | _ => none
  else if c = 'f' then
    match rest with
    | 'a' :: 'l' :: 's' :: 'e' :: r => some (Json.jbool false, r)
    | _ => none
  else if c = '[' then
    let rest2 := skipWS rest
    if rest2.head? = some ']' then some (Json.jarr JsonList.nil, rest2.tail)
    else parseElems fuel rest2
  else if c = '{' then
    let rest2 := skipWS rest
    if rest2.head? = some '}' then some (Json.jobj JsonMembers.nil, rest2.tail)
    else parseMembers fuel rest2
  else none

/-- The continuation of `parseElems` after its first element
(a restatement, for stepwise reasoning). -/
def parseElemsStep (fuel : Nat) (v : Json) (rest : List Char) : Option (Json × List Char) :=
  match skipWS rest with
  | ',' :: r =>
    match parseElems fuel r with
    | some (Json.jarr xs, rem) => some (Json.jarr (JsonList.cons v xs), rem)
    | _ => none
  | ']' :: r => some (Json.jarr (JsonList.cons v JsonList.nil), r)
  | _ => none

/-- The continuation of `parseMembers` after the opening quote of a key
(a restatement, for stepwise reasoning). -/
def parseMembersKey (fuel : Nat) (rest : List Char) : Option (Json × List Char) :=
  match parseStrBody rest with
  | none => none
  | some (kcs, rest2) =>
    match skipWS rest2 with
    | ':' :: rest3 =>
      match parseVal fuel rest3 with
      | none => none
      | some (v, rest4) =>
        match skipWS rest4 with
        | ',' :: r =>
          match parseMembers fuel r with
          | some (Json.jobj kvs, rem) => some (Json.jobj (JsonMembers.cons ⟨kcs⟩ v kvs), rem)
          | _ => none
        | '}' :: r => some (Json.jobj (JsonMembers.cons ⟨kcs⟩ v JsonMembers.nil), r)
        | _ => none
    | _ => none

/-- The continuation of `parseMembers` after a parsed key
(a restatement, for stepwise reasoning). -/
def parseMembersColon (fuel : Nat) (kcs : List Char) (rest2 : List Char) : Option (Json × List Char) :=
  match skipWS rest2 with
  | ':' :: rest3 =>
    match parseVal fuel rest3 with
    | none => none
    | some (v, rest4) =>
      match skipWS rest4 with
      | ',' :: r =>
        match parseMembers fuel r with
        | some (Json.jobj kvs, rem) => some (Json.jobj (JsonMembers.cons ⟨kcs⟩ v kvs), rem)
        | _ => none
      | '}' :: r => some (Json.jobj (JsonMembers.cons ⟨kcs⟩ v JsonMembers.nil), r)
      | _ => none
  | _ => none

/-- The continuation of `parseMembers` after the colon of a member
(a restatement, for stepwise reasoning). -/
def parseMembersVal (fuel : Nat) (kcs : List Char) (rest3 : List Char) : Option (Json × List Char) :=
  match parseVal fuel rest3 with
  | none => none
  | some (v, rest4) =>
    match skipWS rest4 with
    | ',' :: r =>
      match parseMembers fuel r with
      | some (Json.jobj kvs, rem) => some (Json.jobj (JsonMembers.cons ⟨kcs⟩ v kvs), rem)
      | _ => none
    | '}' :: r => some (Json.jobj (JsonMembers.cons ⟨kcs⟩ v JsonMembers.nil), r)
    | _ => none

/-- The continuation of `parseMembers` after a member value
(a restatement, for stepwise reasoning). -/
def parseMembersTail (fuel : Nat) (kcs : List Char) (v : Json) (rest4 : List Char) : Option (Json × List Char) :=
  match skipWS rest4 with
  | ',' :: r =>
    match parseMembers fuel r with
    | some (Json.jobj kvs, rem) => some (Json.jobj (JsonMembers.cons ⟨kcs⟩ v kvs), rem)
    | _ => none
  | '}' :: r => some (Json.jobj (JsonMembers.cons ⟨kcs⟩ v JsonMembers.nil), r)
  | _ => none

/-- The comma continuation of `parseElems`
(a restatement, for stepwise reasoning). -/
def parseElemsComma (fuel : Nat) (v : Json) (r : List Char) : Option (Json × List Char) :=
  match parseElems fuel r with
  | some (Json.jarr xs, rem) => some (Json.jarr (JsonList.cons v xs), rem)
  | _ => none

/-- The comma continuation of `parseMembers`
(a restatement, for stepwise reasoning). -/
def parseMembersComma (fuel : Nat) (kcs : List Char) (v : Json) (r : List Char) : Option (Json × List Char) :=
  match parseMembers fuel r with
  | some (Json.jobj kvs, rem) => some (Json.jobj (JsonMembers.cons ⟨kcs⟩ v kvs), rem)
  | _ => none

/-- The text does not begin with a character that could continue a
number token (used to state the parser round-trip: a marshalled number
followed by such text parses back to exactly that number). -/
def numBoundary : List Char → Bool
  | [] => true
  | c :: _ => !isNumChar c

mutual
/-- Fuel sufficient for `parseVal` on the marshalled form of a value. -/
def jsonFuel : Json → Nat
  | Json.null => 1
  | Json.jbool _ => 1
  | Json.jnum _ => 1
  | Json.jstr _ => 1
  | Json.jarr xs => elemsFuel xs + 1
  | Json.jobj kvs => membersFuel kvs + 1
/-- Fuel sufficient for `parseElems` on marshalled elements. -/
def elemsFuel : JsonList → Nat
  | JsonList.nil => 1
  | JsonList.cons x xs => max (jsonFuel x) (elemsFuel xs) + 1
/-- Fuel sufficient for `parseMembers` on marshalled members. -/
def membersFuel : JsonMembers → Nat
  | JsonMembers.nil => 1
  | JsonMembers.cons _ v kvs => max (jsonFuel v) (membersFuel kvs) + 1
end

/-- `json.Unmarshal` of a whole text into a decoded value; trailing
non-whitespace input is an error, as in Go. -/
def jsonUnmarshalChars (cs : List Char) : Option Json :=
  match parseVal (cs.length + 1) cs with
  | some (v, rest) => if skipWS rest = [] then some v else none
  | none => none

/-! ## Template rendering (Go `text/template`)

`processResponseBody` renders the marshalled body text with
`template.New("body").Parse` followed by `Execute` against the two-key
data map `\x7b "params": params, "now": time.Now().Format(time.RFC3339) \x7d`
(mock.go lines 122-139). The model covers the fragment the response
bodies exercise: literal text, field-chain actions `.a.b...`, and bare
identifiers (which Go rejects at parse time as calls of undefined
functions — `text/template` resolves function names during `Parse`, and
no functions beyond the builtins are registered, and neither `params`
nor `now` is a builtin). Actions using builtin functions, pipelines,
variables or literals are outside the fragment and are classified as
parse errors here; no theorem below touches them. Missing map keys
follow Go's default `missingkey=invalid` behavior (the code never calls
`Option`): indexing a map with an absent key yields an invalid value,
which `Execute` prints as `<no value>` without raising an error. -/

/-- A parsed template: literal text interleaved with field-chain
actions. -/
inductive TmplPiece where
  | lit (cs : List Char) : TmplPiece
  | field (names : List String) : TmplPiece
  deriving DecidableEq

/-- Split the text at the first `\x7b\x7b`, returning the text before it and
(the text after it, when found). -/
def splitAtOpen : List Char → List Char × Option (List Char)
  | [] => ([], none)
  | [c] => ([c], none)
  | c :: d :: rest =>
    if c = '{' ∧ d = '{' then ([], some rest)
    else
      let r := splitAtOpen (d :: rest)
      (c :: r.1, r.2)

/-- Split the text at the first `\x7d\x7d`. -/
def splitAtClose : List Char → List Char × Option (List Char)
  | [] => ([], none)
  | [c] => ([c], none)
  | c :: d :: rest =>
    if c = '}' ∧ d = '}' then ([], some rest)
    else
      let r := splitAtClose (d :: rest)
      (c :: r.1, r.2)

/-- Trim surrounding whitespace of an action's text. -/
def trimWSList (cs : List Char) : List Char := ((skipWS (skipWS cs).reverse)).reverse

/-- Split an action's text on `.` into field names. -/
def splitDots : List Char → List (List Char)
  | [] => [[]]
  | '.' :: rest => [] :: splitDots rest
  | c :: rest =>
    match splitDots rest with
    | [] => [[c]]
    | s :: ss => (c :: s) :: ss

/-- A character allowed in a template field name. -/
def isIdentChar (c : Char) : Bool := c.isAlphanum || c = '_'

/-- A valid template field name: nonempty and alphanumeric. -/
def validIdent (cs : List Char) : Bool := !cs.isEmpty && cs.all isIdentChar

/-- Classify one action's text, as Go's template parser does: a chain of
fields `.a.b` parses to a field action; a bare identifier is an
undefined function (parse-time error); anything else in the modeled
fragment is malformed. -/
def classifyAction (cs : List Char) : Except String TmplPiece :=
  match trimWSList cs with
  | [] => Except.error "template parse error: empty action"
  | '.' :: rest =>
    if rest.isEmpty then Except.ok (TmplPiece.field [])
    else
      let parts := splitDots rest
      if parts.all validIdent then
        Except.ok (TmplPiece.field (parts.map (fun p => (⟨p⟩ : String))))
      else Except.error "template parse error: bad field name"
  | c :: _ =>
    if c.isAlpha || c = '_' then Except.error "template parse error: function not defined"
    else Except.error "template parse error: unrecognized character in action"

/-- Fuel-indexed template parser: alternate literal text and `\x7b\x7b...\x7d\x7d`
actions; an opening delimiter without a closing one is an unclosed
action (a parse error, as in Go). The fuel only bounds the number of
actions; `tmplParseChars` supplies enough for any input. -/
def parsePieces : Nat → List Char → Except String (List TmplPiece)
  | 0, _ => Except.error "template parse error: fuel exhausted"
  | Nat.succ fuel, cs =>
    match splitAtOpen cs with
    | (pre, none) => Except.ok [TmplPiece.lit pre]
    | (pre, some rest) =>
      match splitAtClose rest with
      | (_, none) => Except.error "template parse error: unclosed action"
      | (act, some rest2) =>
        match classifyAction act with
        | Except.error e => Except.error e
        | Except.ok piece =>
          match parsePieces fuel rest2 with
          | Except.error e => Except.error e
          | Except.ok pieces => Except.ok (TmplPiece.lit pre :: piece :: pieces)

/-- `template.Parse` on the marshalled body text. -/
def tmplParseChars (cs : List Char) : Except String (List TmplPiece) :=
  parsePieces (cs.length + 1) cs

/-- Evaluate one field chain against the renderer's data map
`\x7b "params": params, "now": nowStr \x7d`, with Go's default
`missingkey=invalid` semantics (a missing map key yields an invalid
value, printed as `<no value>`); chains outside the modeled fragment
(printing the root context or the whole `params` map) are not exercised
by any theorem. -/
def evalField : List String → List (String × String) → String → Except String (List Char)
  | ["now"], _, nowStr => Except.ok nowStr.data
  | ["params"], _, _ => Except.error "unmodelled: printing the params map"
  | ["params", k], params, _ =>
    match lookupStr params k with
    | some v => Except.ok v.data
    | none => Except.ok "<no value>".data
  | [_], _, _ => Except.ok "<no value>".data
  | _, _, _ => Except.error "template execution error: cannot evaluate field"

/-- `template.Execute`: concatenate literal text and evaluated actions,
stopping at the first evaluation error. -/
def tmplExecPieces : List TmplPiece → List (String × String) → String → Except String (List Char)
  | [], _, _ => Except.ok []
  | TmplPiece.lit cs :: rest, params, nowStr =>
    match tmplExecPieces rest params nowStr with
    | Except.error e => Except.error e
    | Except.ok out => Except.ok (cs ++ out)
  | TmplPiece.field names :: rest, params, nowStr =>
    match evalField names params nowStr with
    | Except.error e => Except.error e
    | Except.ok v =>
      match tmplExecPieces rest params nowStr with
      | Except.error e => Except.error e
      | Except.ok out => Except.ok (v ++ out)

/-! ## Renderer, time formatting, dispatcher, proxy -/

/-- Digit character of `n % 10`. -/
def digitChar (n : Nat) : Char := Char.ofNat (48 + n % 10)

/-- Two-digit zero-padded field (values below 100). -/
def pad2 (n : Nat) : List Char := [digitChar (n / 10 % 10), digitChar n]

/-- Four-digit zero-padded year (values below 10000). -/
def pad4 (n : Nat) : List Char :=
  [digitChar (n / 1000 % 10), digitChar (n / 100 % 10), digitChar (n / 10 % 10), digitChar n]

/-- The `Z07:00` layout element of Go's `time.RFC3339`: `Z` exactly when
the time's zone offset is zero, otherwise a signed `hh:mm` offset. -/
def offsetSuffix (offsetMinutes : Int) : List Char :=
  if offsetMinutes = 0 then ['Z']
  else (if 0 < offsetMinutes then '+' else '-') ::
    (pad2 (offsetMinutes.natAbs / 60) ++ ':' :: pad2 (offsetMinutes.natAbs % 60))

/-- `t.Format(time.RFC3339)` for a wall-clock time carried in a zone
whose offset from UTC is `offsetMinutes` minutes. `time.Now()` (mock.go
line 125) returns the time in the server's local zone, so the rendered
`now` string only ends in `Z` when that local offset is zero. -/
def goFormatRFC3339 (y mo d h mi s : Nat) (offsetMinutes : Int) : List Char :=
  (pad4 y ++ ['-'] ++ pad2 mo ++ ['-'] ++ pad2 d ++ ['T'] ++
    pad2 h ++ [':'] ++ pad2 mi ++ [':'] ++ pad2 s) ++ offsetSuffix offsetMinutes

/-- `processResponseBody` (mock.go lines 114-150): marshal the body,
parse the text as a template, execute it against
`\x7b "params": params, "now": nowStr \x7d`, and unmarshal the rendered text
back into the body. `nowStr` abstracts the effectful
`time.Now().Format(time.RFC3339)`. Every failure (marshal cannot fail
on decoded values; template parse, template execution, unmarshal)
aborts the request with that error. -/
def processResponseBody (body : Json) (params : List (String × String)) (nowStr : String) : Except String Json :=
  let bodyJSON := jsonMarshal body
  match tmplParseChars bodyJSON with
  | Except.error e => Except.error e
  | Except.ok pieces =>
    match tmplExecPieces pieces params nowStr with
    | Except.error e => Except.error e
    | Except.ok rendered =>
      match jsonUnmarshalChars rendered with
      | none => Except.error "failed to unmarshal processed response"
      | some processedBody => Except.ok processedBody

/-- `GenerateResponse` (mock.go lines 95-111): look up the endpoint's
default response name (absence is an error, never a silent substitute),
then return a copy of that response with the processed body; status,
headers and delay pass through unchanged. -/
def GenerateResponse (endpoint : Endpoint) (params : List (String × String)) (nowStr : String) : Except String Response :=
  match lookupStr endpoint.responses endpoint.defaultResponse with
  | none => Except.error ("response " ++ endpoint.defaultResponse ++ " not found for endpoint " ++ endpoint.id)
  | some response =>
    match processResponseBody response.body params nowStr with
    | Except.error e => Except.error e
    | Except.ok newBody =>
      Except.ok { response with body := newBody }

/-- Outcome of one request through the Dispatcher: delegated to the
Proxy Mediator, answered by the mock path, or a mock-path error
(the 500 diagnostic of server.go lines 143-148). -/
inductive Outcome where
  | proxied : Outcome
  | mockError (e : String) : Outcome
  | mocked (r : Response) : Outcome
  deriving DecidableEq

/-- `handleRequest` (server.go lines 120-134) with
`handleMockResponse` (lines 137-157): if `FindEndpoint` fails or the
matched endpoint is inactive, delegate to the Proxy Mediator (the Go
condition `err != nil || !endpoint.Active` short-circuits, so an
inactive or missing match never reaches the renderer); otherwise
extract parameters and generate the mock response. The response delay
and the write of status/headers/body are not modeled; `Outcome.mocked`
carries the rendered response. -/
def handleRequest (mocks : List (String × FeatureConfig)) (method path nowStr : String) : Outcome :=
  match FindEndpoint mocks method path with
  | none => Outcome.proxied
  | some (endpoint, _) =>
    if !endpoint.active then Outcome.proxied
    else
      match GenerateResponse endpoint (ExtractParams endpoint.path path) nowStr with
      | Except.error e => Outcome.mockError e
      | Except.ok r => Outcome.mocked r

/-- The state `UpdateTarget`/`GetTargetURL` read and write:
`Config.Global.ProxyConfig.Target` (proxy.go lines 112, 137-139). -/
structure ProxyState where
  target : String
  deriving DecidableEq

/-- The checks of Go's `url.Parse` on inputs without a `%` escape or a
`//` authority: a byte below 0x20 or equal to 0x7f is rejected
(`invalid control character in URL`), and a leading `:` is rejected by
`getScheme` (`missing protocol scheme`). Everything else in that class
parses successfully — in particular `url.Parse("not a url")` returns a
URL with opaque path `not a url` and a nil error, since spaces are not
rejected. (Inputs with escapes or authorities undergo further checks in
Go, all of which also happen before `UpdateTarget` mutates any state;
no theorem below exercises them.) -/
def urlParse (s : String) : Except String Unit :=
  if s.data.any (fun c => c.toNat < 32 || c.toNat = 127) then
    Except.error "net/url: invalid control character in URL"
  else
    match s.data with
    | ':' :: _ => Except.error "missing protocol scheme"
    | _ => Except.ok ()

/-- `UpdateTarget` (proxy.go lines 103-128): parse the new target first
and return the parse error before touching any state; on success store
the new target string, rebuild the reverse proxy and persist the global
config (the file write is modeled as succeeding). -/
def UpdateTarget (st : ProxyState) (target : String) : Except String Unit × ProxyState :=
  match urlParse target with
  | Except.error e => (Except.error e, st)
  | Except.ok _ => (Except.ok (), { st with target := target })

/-- `GetTargetURL` (proxy.go lines 137-139). -/
def GetTargetURL (st : ProxyState) : String := st.target

/-- Regex metacharacters: a pattern free of these after a leading `^` is
an anchored literal. -/
def regexMeta : List Char :=
  ['\\', '^', '$', '.', '|', '?', '*', '+', '(', ')', '[', ']', '{', '}']

/-- Recognize an anchored-literal pattern `^lit` (the fragment of RE2
this development models; the path-rewrite rules exercised by the
theorems below are all of this form). -/
def anchoredLit (pattern : String) : Option String :=
  match pattern.data with
  | '^' :: rest => if rest.all (fun c => !regexMeta.contains c) then some ⟨rest⟩ else none
  | _ => none

/-- `regexp.MustCompile("^lit").ReplaceAllString(s, repl)`: since `^`
matches only at the start of the text, at most the leading occurrence
of the literal is replaced. -/
def goReplaceAllAnchoredLit (lit repl s : String) : String :=
  if lit.data.isPrefixOf s.data then repl ++ (⟨s.data.drop lit.data.length⟩ : String) else s

/-- One iteration of the director's rewrite loop (proxy.go lines 46-52):
compile the pattern and apply `ReplaceAllString` to the cumulative
path. A pattern that fails to compile is skipped (`continue`); within
the modeled anchored-literal fragment every pattern compiles, and
patterns outside the fragment (never exercised by a theorem) leave the
path unchanged here. -/
def applyRewriteRule (path : String) (rule : String × String) : String :=
  match anchoredLit rule.1 with
  | some lit => goReplaceAllAnchoredLit lit rule.2 path
  | none => path

/-- The director's path-rewrite loop (proxy.go lines 46-52): fold every
`(pattern, replacement)` entry of `ProxyConfig.PathRewrite` over the
outbound path. `PathRewrite` is a Go `map[string]string`
(config.go line 17), so the entries arrive in an unspecified
runtime-chosen enumeration order; the list argument records one such
enumeration. -/
def applyPathRewrite (rules : List (String × String)) (path : String) : String :=
  rules.foldl applyRewriteRule path

/-! ## Spec-side definitions (for refinement comparisons) -/

/-- The Matcher acceptance relation as the spec words it (§4.1): split
both pattern and path on `/`; equal segment counts; compare
segment-by-segment, a `:`-prefixed pattern segment matching any single
path segment, any other pattern segment equal character-for-character
to the path segment. -/
def specMatches (pattern path : String) : Prop :=
  (goSplitSlash pattern).length = (goSplitSlash path).length ∧
  ∀ pr ∈ (goSplitSlash pattern).zip (goSplitSlash path),
    hasColonHd pr.1 = false → pr.1 = pr.2

instance (pattern path : String) : Decidable (specMatches pattern path) := by
  unfold specMatches; infer_instance

/-- The parameter pairs as the spec words them (§8): one entry per
`:`-prefixed pattern segment, mapping the name after `:` to the path
segment at the same index, in order. -/
def specParamPairs : List String → List String → List (String × String)
  | p :: ps, q :: qs =>
    if hasColonHd p then (dropHd p, q) :: specParamPairs ps qs else specParamPairs ps qs
  | _, _ => []

/-- The parameter names carried by a segment list, in order. -/
def segParamNames (ps : List String) : List String := (ps.filter hasColonHd).map dropHd

/-- The parameter names of a pattern, in segment order. -/
def paramNames (pattern : String) : List String := segParamNames (goSplitSlash pattern)

/-- The number of `:`-prefixed segments of a pattern. -/
def numParams (pattern : String) : Nat :=
  ((goSplitSlash pattern).filter hasColonHd).length

/-- The flattened (endpoint, feature) scan sequence of `FindEndpoint`
for one enumeration of the `Mocks` map. -/
def routeSeq : List (String × FeatureConfig) → List (Endpoint × String)
  | [] => []
  | (f, fc) :: rest => (fc.endpoints.map (fun e => (e, f))) ++ routeSeq rest

/-- The marshalled body text contains no `\x7b\x7b` action opener (so the
template engine treats all of it as literal text). -/
def noOpenAction (cs : List Char) : Bool := (splitAtOpen cs).2.isNone

deriving instance DecidableEq for Except


/-! ## Matcher results -/

/-- The segment walk accepts exactly the pairs with equal length whose
non-`:`-prefixed segments agree. -/
theorem segsMatch_iff (ps : List String) : ∀ qs : List String,
    segsMatch ps qs = true ↔
      (ps.length = qs.length ∧ ∀ pr ∈ ps.zip qs, hasColonHd pr.1 = false → pr.1 = pr.2) := by
  induction ps with
  | nil => intro qs; cases qs <;> simp [segsMatch]
  | cons p ps ih =>
    intro qs
    cases qs with
    | nil => simp [segsMatch]
    | cons q qs =>
      simp only [segsMatch, Bool.and_eq_true, Bool.or_eq_true, ih, List.zip_cons_cons,
        List.mem_cons, List.length_cons, Nat.succ.injEq]
      constructor
      · rintro ⟨hpq, hlen, hall⟩
        refine ⟨hlen, ?_⟩
        rintro pr (rfl | hm)
        · intro hc
          rcases hpq with h | h
          · rw [hc] at h; exact absurd h (by simp)
          · exact of_decide_eq_true h
        · exact hall pr hm
      · rintro ⟨hlen, hall⟩
        refine ⟨?_, hlen, fun pr hm => hall pr (Or.inr hm)⟩
        by_cases hc : hasColonHd p = true
        · exact Or.inl hc
        · exact Or.inr (decide_eq_true (hall (p, q) (Or.inl rfl) (by simpa using hc)))

/-- `pathMatches` coincides with the spec's acceptance relation. -/
theorem pathMatches_iff_spec (pattern path : String) :
    pathMatches pattern path = true ↔ specMatches pattern path := by
  unfold pathMatches specMatches
  by_cases h : (goSplitSlash pattern).length = (goSplitSlash path).length
  · simp only [h, ne_eq, not_true_eq_false, if_false, ite_false]
    rw [segsMatch_iff]
    simp [h]
  · simp only [ne_eq, h, not_false_eq_true, if_true, ite_true]
    simp [h]

/-- One feature's scan is a first-match search over its endpoint slice. -/
theorem findInFeature_eq (f : String) (es : List Endpoint) (m p : String) :
    findInFeature f es m p =
      (es.map (fun e => (e, f))).find? (fun ef => ef.1.method = m && pathMatches ef.1.path p) := by
  induction es with
  | nil => rfl
  | cons e es ih =>
    simp only [findInFeature, List.map_cons]
    by_cases h : (decide (e.method = m) && pathMatches e.path p) = true
    · rw [if_pos (by simpa using h), List.find?_cons_of_pos _ (by simpa using h)]
    · rw [if_neg (by simpa using h), List.find?_cons_of_neg _ (by simpa using h), ih]

/-- `FindEndpoint` is the first-match search over the flattened
(endpoint, feature) sequence of the given map enumeration. -/
theorem findEndpoint_eq_aux (mocks : List (String × FeatureConfig)) (m p : String) :
    FindEndpoint mocks m p =
      (routeSeq mocks).find? (fun ef => ef.1.method = m && pathMatches ef.1.path p) := by
  induction mocks with
  | nil => rfl
  | cons fc rest ih =>
    cases fc with
    | mk f cfg =>
      simp only [FindEndpoint, routeSeq, List.find?_append, ih, findInFeature_eq]
      cases (cfg.endpoints.map (fun e => (e, f))).find?
          (fun ef => ef.1.method = m && pathMatches ef.1.path p) with
      | none => simp
      | some r => simp

/-- Claim C1: `FindEndpoint` considers an endpoint a match exactly when
the endpoint's method equals the request method and the pattern accepts
the path per the spec's segment walk (equal segment counts; each
non-`:`-prefixed pattern segment equal to the corresponding path
segment; a `:`-prefixed segment matching any single segment); when no
endpoint of the table qualifies it returns the no-match outcome (it is
a total function — no panic). -/
theorem findEndpoint_matches_iff_spec :
    (∀ pattern path, pathMatches pattern path = true ↔ specMatches pattern path) ∧
    (∀ mocks method path e f, FindEndpoint mocks method path = some (e, f) →
      e.method = method ∧ specMatches e.path path) ∧
    (∀ mocks method path,
      (∀ ef ∈ routeSeq mocks, ¬ (ef.1.method = method ∧ specMatches ef.1.path path)) →
      FindEndpoint mocks method path = none) := by
  refine ⟨pathMatches_iff_spec, ?_, ?_⟩
  · intro mocks method path e f h
    rw [findEndpoint_eq_aux] at h
    have hp := List.find?_some h
    simp only [Bool.and_eq_true, decide_eq_true_eq] at hp
    exact ⟨hp.1, (pathMatches_iff_spec e.path path).1 hp.2⟩
  · intro mocks method path h
    rw [findEndpoint_eq_aux]
    rw [List.find?_eq_none]
    intro ef hef
    simp only [Bool.and_eq_true, decide_eq_true_eq]
    rintro ⟨h1, h2⟩
    exact h ef hef ⟨h1, (pathMatches_iff_spec ef.1.path path).1 h2⟩

/-- Witness for C1: a request whose path mismatches the only endpoint's
pattern on a literal segment (equal segment counts) yields no match. -/
theorem findEndpoint_matches_iff_spec_witness :
    FindEndpoint
      [("users", ⟨"users", [⟨"get-user", "GET", "/api/users/:id", true, "standard", []⟩]⟩)]
      "GET" "/api/products/42" = none :=
  findEndpoint_matches_iff_spec.2.2 _ "GET" "/api/products/42" (by decide)

/-- Claim C9 (amended): for one fixed enumeration of the `Mocks` map,
`FindEndpoint` returns the first endpoint in the flattened
(feature, endpoint) scan sequence that satisfies method and segments —
within a feature the endpoint slice is scanned in insertion order, but
the enumeration over features is Go map order, which is not insertion
order and is not fixed across invocations. -/
theorem findEndpoint_first_match_in_enumeration :
    ∀ mocks method path,
      FindEndpoint mocks method path =
        (routeSeq mocks).find? (fun ef => ef.1.method = method && pathMatches ef.1.path path) :=
  fun mocks method path => findEndpoint_eq_aux mocks method path

/-- Claim C9 counterexample: the same route table (two feature groups,
each holding one active endpoint matching `GET /x`) enumerated in two
orders — both legitimate Go map iteration orders of the same map, as
the permutation shows — makes `FindEndpoint` return two different
endpoints, so match selection across features is not determined by the
table, let alone by insertion order. -/
theorem findEndpoint_map_order_counterexample :
    List.Perm
      [("alpha", (⟨"alpha", [⟨"A", "GET", "/x", true, "ok", []⟩]⟩ : FeatureConfig)),
       ("beta", (⟨"beta", [⟨"B", "GET", "/x", true, "ok", []⟩]⟩ : FeatureConfig))]
      [("beta", (⟨"beta", [⟨"B", "GET", "/x", true, "ok", []⟩]⟩ : FeatureConfig)),
       ("alpha", (⟨"alpha", [⟨"A", "GET", "/x", true, "ok", []⟩]⟩ : FeatureConfig))] ∧
    FindEndpoint
      [("alpha", ⟨"alpha", [⟨"A", "GET", "/x", true, "ok", []⟩]⟩),
       ("beta", ⟨"beta", [⟨"B", "GET", "/x", true, "ok", []⟩]⟩)] "GET" "/x"
      = some (⟨"A", "GET", "/x", true, "ok", []⟩, "alpha") ∧
    FindEndpoint
      [("beta", ⟨"beta", [⟨"B", "GET", "/x", true, "ok", []⟩]⟩),
       ("alpha", ⟨"alpha", [⟨"A", "GET", "/x", true, "ok", []⟩]⟩)] "GET" "/x"
      = some (⟨"B", "GET", "/x", true, "ok", []⟩, "beta") ∧
    (⟨"A", "GET", "/x", true, "ok", []⟩ : Endpoint) ≠ ⟨"B", "GET", "/x", true, "ok", []⟩ :=
  ⟨List.Perm.swap _ _ _, by decide, by decide, by decide⟩

/-- Claim C10: a `:`-prefixed pattern segment also matches the empty
path segment — acceptance never constrains segments at parameter
positions (any pattern/path pair satisfying the spec relation, which
permits empty segments at `:` positions, is accepted), and on the
trailing-slash instance `/a/:id` vs `/a/` the match succeeds and
`ExtractParams` maps `id` to the empty string. -/
theorem param_segment_matches_empty :
    (∀ pattern path, specMatches pattern path → pathMatches pattern path = true) ∧
    pathMatches "/a/:id" "/a/" = true ∧
    ExtractParams "/a/:id" "/a/" = [("id", "")] :=
  ⟨fun pattern path h => (pathMatches_iff_spec pattern path).2 h, by decide, by decide⟩

/-- Witness for C10 at a concrete pattern/path pair with an empty
segment in parameter position. -/
theorem param_segment_matches_empty_witness :
    pathMatches "/api/users/:id" "/api/users/" = true :=
  param_segment_matches_empty.1 "/api/users/:id" "/api/users/" (by decide)

/-- Claim C2: whenever `FindEndpoint` reports no match, or the matched
endpoint is inactive, the Dispatcher delegates to the Proxy Mediator
and never takes the mock path (the renderer is not invoked and no mock
response or mock error is written). -/
theorem dispatcher_proxies_unmatched_or_inactive :
    ∀ mocks method path nowStr,
      (FindEndpoint mocks method path = none ∨
        ∃ e f, FindEndpoint mocks method path = some (e, f) ∧ e.active = false) →
      handleRequest mocks method path nowStr = Outcome.proxied := by
  intro mocks method path nowStr h
  rcases h with h | ⟨e, f, h, ha⟩
  · simp [handleRequest, h]
  · simp [handleRequest, h, ha]

/-- Witness for C2: an inactive endpoint that the Matcher does find is
still proxied. -/
theorem dispatcher_proxies_unmatched_or_inactive_witness :
    handleRequest
      [("test", ⟨"test", [⟨"inactive-endpoint", "GET", "/api/inactive", false, "standard", []⟩]⟩)]
      "GET" "/api/inactive" "now" = Outcome.proxied :=
  dispatcher_proxies_unmatched_or_inactive _ _ _ _
    (Or.inr ⟨⟨"inactive-endpoint", "GET", "/api/inactive", false, "standard", []⟩, "test",
      by decide, rfl⟩)

/-! ## Parameter extraction -/

/-- Assigning a key absent from the map appends the binding. -/
theorem mapSet_fresh (m : List (String × String)) (k v : String)
    (h : k ∉ m.map Prod.fst) : mapSet m k v = m ++ [(k, v)] := by
  induction m with
  | nil => rfl
  | cons kv rest ih =>
    cases kv with
    | mk k0 v0 =>
      simp only [List.map_cons, List.mem_cons] at h
      push_neg at h
      simp only [mapSet, if_neg (Ne.symm h.1), List.cons_append, List.cons.injEq, true_and]
      exact ih h.2

/-- The extraction loop over a fresh accumulator produces exactly the
spec's parameter pairs when the pattern's parameter names are distinct. -/
theorem extractLoop_fresh (ps : List String) : ∀ (qs : List String) (acc : List (String × String)),
    ps.length = qs.length →
    (segParamNames ps).Nodup →
    (∀ n ∈ segParamNames ps, n ∉ acc.map Prod.fst) →
    extractLoop ps qs acc = acc ++ specParamPairs ps qs := by
  induction ps with
  | nil =>
    intro qs acc hlen _ _
    cases qs with
    | nil => simp [extractLoop, specParamPairs]
    | cons q qs => simp at hlen
  | cons p ps ih =>
    intro qs acc hlen hnd hfresh
    cases qs with
    | nil => simp at hlen
    | cons q qs =>
      simp only [List.length_cons, Nat.succ.injEq] at hlen
      by_cases hc : hasColonHd p = true
      · have hnames : segParamNames (p :: ps) = dropHd p :: segParamNames ps := by
          simp [segParamNames, List.filter_cons, hc]
        rw [hnames] at hnd hfresh
        rw [List.nodup_cons] at hnd
        have hfresh0 : dropHd p ∉ acc.map Prod.fst := hfresh _ (List.mem_cons_self _ _)
        simp only [extractLoop, hc, if_true, ite_true]
        rw [mapSet_fresh acc (dropHd p) q hfresh0]
        rw [ih qs _ hlen hnd.2 ?_]
        · simp [specParamPairs, hc, List.append_assoc]
        · intro n hn
          simp only [List.map_append, List.mem_append, List.map_cons, List.map_nil,
            List.mem_singleton]
          rintro (hmem | rfl)
          · exact hfresh n (List.mem_cons_of_mem _ hn) hmem
          · exact hnd.1 hn
      · have hnames : segParamNames (p :: ps) = segParamNames ps := by
          simp [segParamNames, List.filter_cons, hc]
        rw [hnames] at hnd hfresh
        simp only [extractLoop, hc, if_false, ite_false]
        rw [ih qs acc hlen hnd hfresh]
        simp [specParamPairs, hc]

/-- The spec's parameter pairs: one entry per `:`-prefixed pattern
segment (for equal-length lists). -/
theorem specParamPairs_length (ps : List String) : ∀ qs : List String,
    ps.length = qs.length →
    (specParamPairs ps qs).length = (ps.filter hasColonHd).length := by
  induction ps with
  | nil => intro qs _; cases qs <;> simp [specParamPairs]
  | cons p ps ih =>
    intro qs hlen
    cases qs with
    | nil => simp at hlen
    | cons q qs =>
      simp only [List.length_cons, Nat.succ.injEq] at hlen
      by_cases hc : hasColonHd p = true
      · simp [specParamPairs, hc, List.filter_cons, ih qs hlen]
      · simp [specParamPairs, hc, List.filter_cons, ih qs hlen]

/-- Claim C3 (amended): for a pattern whose parameter names are
pairwise distinct and a path of equal segment count, `ExtractParams`
returns exactly one entry per `:`-prefixed segment, in segment order,
each mapping the name after `:` to the path segment at the same index,
verbatim. (With duplicate names, a Go map holds a single entry per
name — the last occurrence wins — so the count falls short of `n`.) -/
theorem extractParams_distinct_names_exact :
    ∀ pattern path,
      (goSplitSlash pattern).length = (goSplitSlash path).length →
      (paramNames pattern).Nodup →
      ExtractParams pattern path = specParamPairs (goSplitSlash pattern) (goSplitSlash path) ∧
      (ExtractParams pattern path).length = numParams pattern := by
  intro pattern path hlen hnd
  have h := extractLoop_fresh (goSplitSlash pattern) (goSplitSlash path) [] hlen hnd (by simp)
  simp only [List.nil_append] at h
  refine ⟨h, ?_⟩
  show (extractLoop (goSplitSlash pattern) (goSplitSlash path) []).length = numParams pattern
  rw [h, numParams, specParamPairs_length _ _ hlen]

/-- Witness for C3 (amended) on a mixed static/parameter pattern. -/
theorem extractParams_distinct_names_exact_witness :
    ExtractParams "/api/:version/users/:id/profile" "/api/v1/users/123/profile"
      = [("version", "v1"), ("id", "123")] ∧
    (ExtractParams "/api/:version/users/:id/profile" "/api/v1/users/123/profile").length = 2 := by
  have h := extractParams_distinct_names_exact "/api/:version/users/:id/profile"
    "/api/v1/users/123/profile" (by decide) (by decide)
  exact ⟨h.1.trans (by decide), h.2.trans (by decide)⟩

/-- Claim C3 counterexample: the pattern `/:a/:a` has two parameter
segments and matches the path `/x/y`, yet `ExtractParams` returns a
single entry (the Go map assignment overwrites the first capture), so
the map does not have exactly `n` entries and the first parameter
position's segment is not retained. -/
theorem extractParams_dup_names_counterexample :
    pathMatches "/:a/:a" "/x/y" = true ∧
    numParams "/:a/:a" = 2 ∧
    ExtractParams "/:a/:a" "/x/y" = [("a", "y")] ∧
    ¬ (ExtractParams "/:a/:a" "/x/y").length = 2 := by
  refine ⟨by decide, by decide, by decide, by decide⟩

/-! ## Proxy target and path rewriting -/

/-- Claim C4 (amended): on any input Go's `url.Parse` rejects,
`UpdateTarget` returns that error and the active target is unchanged —
the parse runs before any mutation. (The claim's example input
`"not a url"` is not such an input: see the counterexample.) -/
theorem updateTarget_parse_error_preserves_target :
    ∀ st target e, urlParse target = Except.error e →
      (UpdateTarget st target).1 = Except.error e ∧
      GetTargetURL (UpdateTarget st target).2 = GetTargetURL st := by
  intro st target e h
  simp [UpdateTarget, h, GetTargetURL]

/-- Witness for C4 (amended): a target string with a leading colon is
rejected by `getScheme` and the prior target stays in effect. -/
theorem updateTarget_parse_error_preserves_target_witness :
    (UpdateTarget ⟨"http://example.com"⟩ ":badurl").1
        = Except.error "missing protocol scheme" ∧
      GetTargetURL (UpdateTarget ⟨"http://example.com"⟩ ":badurl").2
        = GetTargetURL ⟨"http://example.com"⟩ :=
  updateTarget_parse_error_preserves_target ⟨"http://example.com"⟩ ":badurl"
    "missing protocol scheme" (by decide)

/-- Claim C4 counterexample: `url.Parse("not a url")` succeeds (Go does
not reject spaces; the string parses as an opaque path), so
`UpdateTarget` on the claim's example input returns no error and
replaces the active target — `GetTargetURL` differs before and after
the call. -/
theorem updateTarget_not_a_url_counterexample :
    (UpdateTarget ⟨"http://example.com"⟩ "not a url").1 = Except.ok () ∧
    GetTargetURL (UpdateTarget ⟨"http://example.com"⟩ "not a url").2 = "not a url" ∧
    ¬ GetTargetURL (UpdateTarget ⟨"http://example.com"⟩ "not a url").2
        = GetTargetURL ⟨"http://example.com"⟩ := by
  refine ⟨by decide, by decide, by decide⟩

/-- Claim C5 (amended): the rewrite loop applies every rule to the
cumulative result of the rules before it — splitting the enumeration
anywhere composes — and the single rule `^/api -> ""` rewrites
`/api/products` to `/products`; but the enumeration order is that of a
Go map range, which is unspecified, not declaration order. -/
theorem pathRewrite_cumulative_unordered :
    (∀ rules1 rules2 path,
        applyPathRewrite (rules1 ++ rules2) path
          = applyPathRewrite rules2 (applyPathRewrite rules1 path)) ∧
    applyPathRewrite [("^/api", "")] "/api/products" = "/products" :=
  ⟨fun rules1 rules2 path => List.foldl_append _ _ rules1 rules2, by decide⟩

/-- Claim C5 counterexample: the same two-rule set enumerated in two
orders — a permutation, as a Go map may present it either way — yields
different outbound paths, so the rules are not applied "in the order
the rules were declared": the rewritten path is not determined by the
rule set at all. -/
theorem pathRewrite_order_counterexample :
    List.Perm [("^/a", "/b"), ("^/b", "/c")] [("^/b", "/c"), ("^/a", "/b")] ∧
    applyPathRewrite [("^/a", "/b"), ("^/b", "/c")] "/a" = "/c" ∧
    applyPathRewrite [("^/b", "/c"), ("^/a", "/b")] "/a" = "/b" ∧
    ¬ ("/c" : String) = "/b" :=
  ⟨List.Perm.swap _ _ _, by decide, by decide, by decide⟩

/-! ## Renderer results -/

/-- Claim C7 evidence: a body carrying the documented placeholder
`\x7b\x7bnow\x7d\x7d` makes the renderer fail with a template parse error —
`text/template` resolves `now` as a function name at parse time and no
such function is registered — so the placeholder never resolves to any
timestamp; with the dotted spelling `\x7b\x7b.now\x7d\x7d` that the engine does
accept, the substituted value is `time.Now().Format(time.RFC3339)`,
the server's local time, which on a host two hours east of UTC renders
`2023-05-13T14:30:00+02:00` — not ending in `Z`; the rendered string
ends in `Z` exactly when the local zone offset is zero. -/
theorem render_now_placeholder_behavior :
    (∀ params nowStr, processResponseBody (Json.jstr "\x7b\x7bnow\x7d\x7d") params nowStr
        = Except.error "template parse error: function not defined") ∧
    processResponseBody (Json.jstr "\x7b\x7b.now\x7d\x7d") []
        (⟨goFormatRFC3339 2023 5 13 14 30 0 120⟩ : String)
      = Except.ok (Json.jstr "2023-05-13T14:30:00+02:00") ∧
    ¬ ("2023-05-13T14:30:00+02:00".data.getLast? = some 'Z') ∧
    (∀ y mo d h mi s, (goFormatRFC3339 y mo d h mi s 0).getLast? = some 'Z') := by
  refine ⟨fun params nowStr => rfl, by decide, by decide, ?_⟩
  intro y mo d h mi s
  rw [goFormatRFC3339, List.getLast?_append_of_ne_nil _ (by simp [offsetSuffix])]
  simp [offsetSuffix]

/-- Claim C6 (amended): a malformed placeholder — any text the template
parser rejects, including an unclosed `\x7b\x7b` and the documented undotted
forms `\x7b\x7bparams.x\x7d\x7d` / `\x7b\x7bnow\x7d\x7d`, which are parse-time
unknown-function errors — surfaces as a template error for the request;
but an unresolved dotted placeholder is not an error (see the
counterexample: a missing `params` key silently renders as the default
text `<no value>`). -/
theorem renderer_malformed_placeholder_errors :
    (∀ body params nowStr e, tmplParseChars (jsonMarshal body) = Except.error e →
        processResponseBody body params nowStr = Except.error e) ∧
    (∀ params nowStr, processResponseBody (Json.jstr "\x7b\x7bparams.x\x7d\x7d") params nowStr
        = Except.error "template parse error: function not defined") ∧
    (∀ params nowStr, processResponseBody (Json.jstr "\x7b\x7bbroken") params nowStr
        = Except.error "template parse error: unclosed action") := by
  refine ⟨?_, fun params nowStr => rfl, fun params nowStr => rfl⟩
  intro body params nowStr e h
  simp only [processResponseBody]
  rw [h]

/-- Witness for C6 (amended) at a concrete malformed body. -/
theorem renderer_malformed_placeholder_errors_witness :
    processResponseBody (Json.jstr "\x7b\x7bnope") [] "t"
      = Except.error "template parse error: unclosed action" :=
  renderer_malformed_placeholder_errors.1 (Json.jstr "\x7b\x7bnope") [] "t"
    "template parse error: unclosed action" (by decide)

/-- Claim C6 counterexample: the body `"\x7b\x7b.params.x\x7d\x7d"` with `x`
absent from the ParameterMap renders successfully — under Go's default
`missingkey=invalid` option the missing map key yields an invalid
value, which `Execute` prints as the default text `<no value>` without
raising an error — so the renderer silently replaces the unresolved
placeholder with default text and returns no template error, which the
claim forbids. -/
theorem renderer_silent_empty_counterexample :
    lookupStr ([] : List (String × String)) "x" = none ∧
    processResponseBody (Json.jstr "\x7b\x7b.params.x\x7d\x7d") [] "2023-05-13T14:30:00Z"
      = Except.ok (Json.jstr "<no value>") := by
  refine ⟨rfl, by decide⟩

/-! ## Marshal/unmarshal round trip -/

/-- JSON whitespace characters cannot begin a number token. -/
theorem ws_not_numStart (c : Char) (h : isWS c = true) : isNumStart c = false := by
  rw [isWS] at h
  simp only [Bool.or_eq_true, decide_eq_true_eq] at h
  rcases h with ((rfl | rfl) | rfl) | rfl <;> decide

/-- A character that can begin a number token is not whitespace. -/
theorem isNumStart_not_ws (c : Char) (h : isNumStart c = true) : isWS c = false := by
  by_cases hw : isWS c = true
  · rw [ws_not_numStart c hw] at h; exact absurd h (by simp)
  · simpa using hw

/-- `skipWS` leaves a non-whitespace-headed text unchanged. -/
theorem skipWS_not_ws (c : Char) (l : List Char) (h : isWS c = false) :
    skipWS (c :: l) = c :: l := by
  rw [skipWS, h]
  simp

/-- Taking number characters off a number token followed by a boundary
recovers the token. -/
theorem takeWhile_num_append (tok : List Char) : ∀ rest : List Char,
    tok.all isNumChar = true → numBoundary rest = true →
    (tok ++ rest).takeWhile isNumChar = tok ∧ (tok ++ rest).dropWhile isNumChar = rest := by
  induction tok with
  | nil =>
    intro rest _ hb
    cases rest with
    | nil => simp
    | cons c l =>
      rw [numBoundary] at hb
      simp only [Bool.not_eq_true'] at hb
      simp [List.takeWhile_cons, List.dropWhile_cons, hb]
  | cons c tok ih =>
    intro rest hall hb
    simp only [List.all_cons, Bool.and_eq_true] at hall
    have h2 := ih rest hall.2 hb
    simp [List.takeWhile_cons, List.dropWhile_cons, hall.1, h2.1, h2.2]

/-- `hexVal` inverts `hexDig` on one hex digit. -/
theorem hexVal_hexDig (n : Nat) (h : n < 16) : hexVal (hexDig n) = some n := by
  interval_cases n <;> decide

/-- Unfolding `parseStrBody` at the closing quote. -/
theorem parseStrBody_quote (l : List Char) : parseStrBody ('"' :: l) = some ([], l) := by
  rw [parseStrBody.eq_def]
  simp

/-- Unfolding `parseStrBody` at a plain (unescaped) character. -/
theorem parseStrBody_plain (c : Char) (l : List Char) (h1 : c ≠ '"') (h2 : c ≠ '\\') :
    parseStrBody (c :: l) = (parseStrBody l).map (fun p => (c :: p.1, p.2)) := by
  rw [parseStrBody.eq_def]
  simp only [if_neg h1, if_neg h2]

/-- Unfolding `parseStrBody` at a single-character escape. -/
theorem parseStrBody_esc (e uc : Char) (l : List Char) (he : unescChar e = some uc)
    (hne : e ≠ 'u') :
    parseStrBody ('\\' :: e :: l) = (parseStrBody l).map (fun p => (uc :: p.1, p.2)) := by
  rw [parseStrBody.eq_def]
  simp only [reduceIte, if_neg hne, he]
  rw [if_neg (by decide)]

/-- Unfolding `parseStrBody` at a `\u`-escape. -/
theorem parseStrBody_u (h1 h2 h3 h4 : Char) (a b cc d : Nat) (l : List Char)
    (ha : hexVal h1 = some a) (hb : hexVal h2 = some b) (hc : hexVal h3 = some cc)
    (hd : hexVal h4 = some d) :
    parseStrBody ('\\' :: 'u' :: h1 :: h2 :: h3 :: h4 :: l) =
      (parseStrBody l).map (fun p => (Char.ofNat (a * 4096 + b * 256 + cc * 16 + d) :: p.1, p.2)) := by
  rw [parseStrBody.eq_def]
  simp only [reduceIte, ha, hb, hc, hd]
  rw [if_neg (by decide)]

set_option maxHeartbeats 2000000 in
/-- Parsing a string body inverts the Go escaping of every character. -/
theorem parseStrBody_escList (cs : List Char) : ∀ rest : List Char,
    parseStrBody (escList cs ++ '"' :: rest) = some (cs, rest) := by
  induction cs with
  | nil =>
    intro rest
    rw [escList, List.nil_append, parseStrBody_quote]
  | cons c cs ih =>
    intro rest
    rw [escList, List.append_assoc, escChar]
    split_ifs with h1 h2 h3 h4 h5 h6 h7 h8 h9 h10 h11
    · subst h1
      simp only [List.cons_append, List.nil_append]
      rw [parseStrBody_esc '"' '"' _ (by decide) (by decide), ih]
      rfl
    · subst h2
      simp only [List.cons_append, List.nil_append]
      rw [parseStrBody_esc '\\' '\\' _ (by decide) (by decide), ih]
      rfl
    · subst h3
      simp only [List.cons_append, List.nil_append]
      rw [parseStrBody_esc 'n' '\n' _ (by decide) (by decide), ih]
      rfl
    · subst h4
      simp only [List.cons_append, List.nil_append]
      rw [parseStrBody_esc 'r' '\r' _ (by decide) (by decide), ih]
      rfl
    · subst h5
      simp only [List.cons_append, List.nil_append]
      rw [parseStrBody_esc 't' '\t' _ (by decide) (by decide), ih]
      rfl
    · have ha : c.toNat / 16 < 16 := by omega
      have hb : c.toNat % 16 < 16 := by omega
      simp only [List.cons_append, List.nil_append]
      rw [parseStrBody_u '0' '0' (hexDig (c.toNat / 16)) (hexDig (c.toNat % 16)) 0 0
        (c.toNat / 16) (c.toNat % 16) _ (by decide) (by decide)
        (hexVal_hexDig _ ha) (hexVal_hexDig _ hb), ih]
      have harith : 0 * 4096 + 0 * 256 + c.toNat / 16 * 16 + c.toNat % 16 = c.toNat := by omega
      simp only [Option.map_some']
      rw [harith, Char.ofNat_toNat]
    · subst h7
      simp only [List.cons_append, List.nil_append]
      rw [parseStrBody_u '0' '0' '3' 'c' 0 0 3 12 _ (by decide) (by decide) (by decide)
        (by decide), ih]
      simp only [Option.map_some']
    · subst h8
      simp only [List.cons_append, List.nil_append]
      rw [parseStrBody_u '0' '0' '3' 'e' 0 0 3 14 _ (by decide) (by decide) (by decide)
        (by decide), ih]
      simp only [Option.map_some']
    · subst h9
      simp only [List.cons_append, List.nil_append]
      rw [parseStrBody_u '0' '0' '2' '6' 0 0 2 6 _ (by decide) (by decide) (by decide)
        (by decide), ih]
      simp only [Option.map_some']
    · have hc : c = Char.ofNat 8232 := by
        have h := Char.ofNat_toNat c
        rw [h10] at h
        exact h.symm
      subst hc
      simp only [List.cons_append, List.nil_append]
      rw [parseStrBody_u '2' '0' '2' '8' 2 0 2 8 _ (by decide) (by decide) (by decide)
        (by decide), ih]
      simp only [Option.map_some']
    · have hc : c = Char.ofNat 8233 := by
        have h := Char.ofNat_toNat c
        rw [h11] at h
        exact h.symm
      subst hc
      simp only [List.cons_append, List.nil_append]
      rw [parseStrBody_u '2' '0' '2' '9' 2 0 2 9 _ (by decide) (by decide) (by decide)
        (by decide), ih]
      simp only [Option.map_some']
    · rw [List.singleton_append, parseStrBody_plain c _ h1 h2, ih]
      rfl

/-- `parseVal` on a non-whitespace-headed text dispatches on the head
character. -/
theorem parseVal_cons (f : Nat) (c : Char) (l : List Char) (hw : isWS c = false) :
    parseVal (f + 1) (c :: l) = parseValHead f c l := by
  show parseVal (Nat.succ f) _ = _
  rw [parseVal, skipWS_not_ws _ _ hw]
  rfl

/-- Unfolding `parseVal` at a `null` literal. -/
theorem parseVal_null (f : Nat) (r : List Char) :
    parseVal (f + 1) ('n' :: 'u' :: 'l' :: 'l' :: r) = some (Json.null, r) := by
  rw [parseVal_cons f 'n' _ (by decide)]
  rfl

/-- Unfolding `parseVal` at a `true` literal. -/
theorem parseVal_true (f : Nat) (r : List Char) :
    parseVal (f + 1) ('t' :: 'r' :: 'u' :: 'e' :: r) = some (Json.jbool true, r) := by
  rw [parseVal_cons f 't' _ (by decide)]
  rfl

/-- Unfolding `parseVal` at a `false` literal. -/
theorem parseVal_false (f : Nat) (r : List Char) :
    parseVal (f + 1) ('f' :: 'a' :: 'l' :: 's' :: 'e' :: r) = some (Json.jbool false, r) := by
  rw [parseVal_cons f 'f' _ (by decide)]
  rfl

/-- Unfolding `parseVal` at a number token. -/
theorem parseVal_num (f : Nat) (c : Char) (l : List Char) (h : isNumStart c = true) :
    parseVal (f + 1) (c :: l)
      = some (Json.jnum ⟨c :: l.takeWhile isNumChar⟩, l.dropWhile isNumChar) := by
  rw [parseVal_cons f c _ (isNumStart_not_ws c h), parseValHead.eq_def, if_pos h]

/-- Unfolding `parseVal` at a string literal. -/
theorem parseVal_str (f : Nat) (l : List Char) (p : List Char × List Char)
    (h : parseStrBody l = some p) :
    parseVal (f + 1) ('"' :: l) = some (Json.jstr ⟨p.1⟩, p.2) := by
  rw [parseVal_cons f '"' _ (by decide), parseValHead.eq_def, h]
  rfl

/-- Unfolding `parseVal` at an empty array. -/
theorem parseVal_arr_empty (f : Nat) (l : List Char) (r : List Char)
    (h : skipWS l = ']' :: r) :
    parseVal (f + 1) ('[' :: l) = some (Json.jarr JsonList.nil, r) := by
  rw [parseVal_cons f '[' _ (by decide), parseValHead.eq_def, h]
  rfl

/-- Unfolding `parseVal` at a nonempty array. -/
theorem parseVal_arr_cons (f : Nat) (l : List Char) (c0 : Char) (t : List Char)
    (h : skipWS l = c0 :: t) (hne : c0 ≠ ']') :
    parseVal (f + 1) ('[' :: l) = parseElems f (c0 :: t) := by
  rw [parseVal_cons f '[' _ (by decide), parseValHead.eq_def, h]
  rw [if_neg (by decide), if_neg (by decide), if_neg (by decide), if_neg (by decide),
    if_neg (by decide), if_pos rfl]
  simp only [List.head?_cons, List.tail_cons]
  rw [if_neg (by simpa using hne)]

/-- Unfolding `parseVal` at an empty object. -/
theorem parseVal_obj_empty (f : Nat) (l : List Char) (r : List Char)
    (h : skipWS l = '}' :: r) :
    parseVal (f + 1) ('{' :: l) = some (Json.jobj JsonMembers.nil, r) := by
  rw [parseVal_cons f '{' _ (by decide), parseValHead.eq_def, h]
  rfl

/-- Unfolding `parseVal` at a nonempty object. -/
theorem parseVal_obj_cons (f : Nat) (l : List Char) (c0 : Char) (t : List Char)
    (h : skipWS l = c0 :: t) (hne : c0 ≠ '}') :
    parseVal (f + 1) ('{' :: l) = parseMembers f (c0 :: t) := by
  rw [parseVal_cons f '{' _ (by decide), parseValHead.eq_def, h]
  rw [if_neg (by decide), if_neg (by decide), if_neg (by decide), if_neg (by decide),
    if_neg (by decide), if_neg (by decide), if_pos rfl]
  simp only [List.head?_cons, List.tail_cons]
  rw [if_neg (by simpa using hne)]

/-- `parseElems` steps through its first element. -/
theorem parseElems_step (f : Nat) (cs : List Char) (v : Json) (rest : List Char)
    (h : parseVal f cs = some (v, rest)) :
    parseElems (f + 1) cs = parseElemsStep f v rest := by
  show parseElems (Nat.succ f) _ = _
  rw [parseElems, h]
  rfl

/-- Unfolding `parseElems` at the last element. -/
theorem parseElems_last (f : Nat) (cs : List Char) (v : Json) (rest r : List Char)
    (h1 : parseVal f cs = some (v, rest)) (h2 : skipWS rest = ']' :: r) :
    parseElems (f + 1) cs = some (Json.jarr (JsonList.cons v JsonList.nil), r) := by
  rw [parseElems_step f cs v rest h1, parseElemsStep.eq_def, h2]
  rfl

/-- Unfolding `parseElems` at a non-final element. -/
theorem parseElems_cons (f : Nat) (cs : List Char) (v : Json) (rest r rem : List Char)
    (xs : JsonList)
    (h1 : parseVal f cs = some (v, rest)) (h2 : skipWS rest = ',' :: r)
    (h3 : parseElems f r = some (Json.jarr xs, rem)) :
    parseElems (f + 1) cs = some (Json.jarr (JsonList.cons v xs), rem) := by
  rw [parseElems_step f cs v rest h1, parseElemsStep.eq_def, h2]
  show parseElemsComma f v r = _
  rw [parseElemsComma.eq_def, h3]

/-- `parseMembers` steps past the opening quote of a key. -/
theorem parseMembers_quote (f : Nat) (cs rest : List Char)
    (h : skipWS cs = '"' :: rest) :
    parseMembers (f + 1) cs = parseMembersKey f rest := by
  show parseMembers (Nat.succ f) _ = _
  rw [parseMembers, h]
  rfl

/-- `parseMembersKey` steps through the parsed key. -/
theorem parseMembersKey_step (f : Nat) (rest kcs rest2 : List Char)
    (h : parseStrBody rest = some (kcs, rest2)) :
    parseMembersKey f rest = parseMembersColon f kcs rest2 := by
  rw [parseMembersKey.eq_def, h]
  rfl

/-- `parseMembersColon` steps through the colon. -/
theorem parseMembersColon_step (f : Nat) (kcs rest2 rest3 : List Char)
    (h : skipWS rest2 = ':' :: rest3) :
    parseMembersColon f kcs rest2 = parseMembersVal f kcs rest3 := by
  rw [parseMembersColon.eq_def, h]
  rfl

/-- `parseMembersVal` steps through the member value. -/
theorem parseMembersVal_step (f : Nat) (kcs rest3 : List Char) (v : Json) (rest4 : List Char)
    (h3 : parseVal f rest3 = some (v, rest4)) :
    parseMembersVal f kcs rest3 = parseMembersTail f kcs v rest4 := by
  rw [parseMembersVal.eq_def, h3]
  rfl

/-- Unfolding `parseMembers` at the last member. -/
theorem parseMembers_last (f : Nat) (cs kcs : List Char) (v : Json)
    (rest2 rest3 rest4 r rem : List Char)
    (h0 : skipWS cs = '"' :: rest2)
    (h1 : parseStrBody rest2 = some (kcs, rest3))
    (h2 : skipWS rest3 = ':' :: rest4)
    (h3 : parseVal f rest4 = some (v, r))
    (h4 : skipWS r = '}' :: rem) :
    parseMembers (f + 1) cs
      = some (Json.jobj (JsonMembers.cons ⟨kcs⟩ v JsonMembers.nil), rem) := by
  rw [parseMembers_quote f cs rest2 h0, parseMembersKey_step f rest2 kcs rest3 h1,
    parseMembersColon_step f kcs rest3 rest4 h2, parseMembersVal_step f kcs rest4 v r h3,
    parseMembersTail.eq_def, h4]
  rfl

/-- Unfolding `parseMembers` at a non-final member. -/
theorem parseMembers_cons (f : Nat) (cs kcs : List Char) (v : Json)
    (rest2 rest3 rest4 r rem rem2 : List Char) (kvs : JsonMembers)
    (h0 : skipWS cs = '"' :: rest2)
    (h1 : parseStrBody rest2 = some (kcs, rest3))
    (h2 : skipWS rest3 = ':' :: rest4)
    (h3 : parseVal f rest4 = some (v, r))
    (h4 : skipWS r = ',' :: rem)
    (h5 : parseMembers f rem = some (Json.jobj kvs, rem2)) :
    parseMembers (f + 1) cs
      = some (Json.jobj (JsonMembers.cons ⟨kcs⟩ v kvs), rem2) := by
  rw [parseMembers_quote f cs rest2 h0, parseMembersKey_step f rest2 kcs rest3 h1,
    parseMembersColon_step f kcs rest3 rest4 h2, parseMembersVal_step f kcs rest4 v r h3,
    parseMembersTail.eq_def, h4]
  show parseMembersComma f kcs v rem = _
  rw [parseMembersComma.eq_def, h5]

/-- Every value needs at least one unit of fuel. -/
theorem one_le_jsonFuel (x : Json) : 1 ≤ jsonFuel x := by
  cases x <;> simp [jsonFuel]

/-- The marshalled form of a well-formed value begins with a
non-whitespace character that is not a closing bracket. -/
theorem jsonMarshal_head (x : Json) (hwf : Json.wf x = true) :
    ∃ c l, jsonMarshal x = c :: l ∧ isWS c = false ∧ c ≠ ']' ∧ c ≠ '}' := by
  cases x with
  | null => exact ⟨'n', ['u', 'l', 'l'], rfl, by decide, by decide, by decide⟩
  | jbool b =>
    cases b with
    | true => exact ⟨'t', ['r', 'u', 'e'], rfl, by decide, by decide, by decide⟩
    | false => exact ⟨'f', ['a', 'l', 's', 'e'], rfl, by decide, by decide, by decide⟩
  | jnum s =>
    rw [Json.wf] at hwf
    cases hd : s.data with
    | nil => rw [numTokOk.eq_def, hd] at hwf; simp at hwf
    | cons c cs =>
      rw [numTokOk.eq_def, hd] at hwf
      simp only [Bool.and_eq_true] at hwf
      refine ⟨c, cs, by rw [jsonMarshal, hd], isNumStart_not_ws c hwf.1, ?_, ?_⟩
      · intro heq; rw [heq] at hwf; exact absurd hwf.1 (by decide)
      · intro heq; rw [heq] at hwf; exact absurd hwf.1 (by decide)
  | jstr s => exact ⟨'"', escList s.data ++ ['"'], by rw [jsonMarshal], by decide, by decide, by decide⟩
  | jarr xs => exact ⟨'[', marshalElems xs ++ [']'], by rw [jsonMarshal], by decide, by decide, by decide⟩
  | jobj kvs => exact ⟨'{', marshalMembers kvs ++ ['}'], by rw [jsonMarshal], by decide, by decide, by decide⟩

/-- Marshalled further elements start at a boundary for number tokens. -/
theorem numBoundary_sepElems (xs : JsonList) (r : List Char) :
    numBoundary (sepElems xs ++ ']' :: r) = true := by
  cases xs with
  | nil => rfl
  | cons y ys => rfl

/-- Marshalled further members start at a boundary for number tokens. -/
theorem numBoundary_sepMembers (kvs : JsonMembers) (r : List Char) :
    numBoundary (sepMembers kvs ++ '}' :: r) = true := by
  cases kvs with
  | nil => rfl
  | cons k v kvs => rfl

mutual
/-- Round trip: parsing the marshalled form of a well-formed value
followed by a number-boundary continuation yields the value back. -/
theorem parseVal_marshal : ∀ (x : Json) (f : Nat) (rest : List Char),
    jsonFuel x ≤ f → Json.wf x = true → numBoundary rest = true →
    parseVal f (jsonMarshal x ++ rest) = some (x, rest)
  | Json.null, f, rest, hf, _, _ => by
    obtain ⟨f2, rfl⟩ : ∃ f2, f = f2 + 1 := ⟨f - 1, by rw [jsonFuel] at hf; omega⟩
    exact parseVal_null f2 rest
  | Json.jbool true, f, rest, hf, _, _ => by
    obtain ⟨f2, rfl⟩ : ∃ f2, f = f2 + 1 := ⟨f - 1, by rw [jsonFuel] at hf; omega⟩
    exact parseVal_true f2 rest
  | Json.jbool false, f, rest, hf, _, _ => by
    obtain ⟨f2, rfl⟩ : ∃ f2, f = f2 + 1 := ⟨f - 1, by rw [jsonFuel] at hf; omega⟩
    exact parseVal_false f2 rest
  | Json.jnum s, f, rest, hf, hwf, hb => by
    obtain ⟨f2, rfl⟩ : ∃ f2, f = f2 + 1 := ⟨f - 1, by rw [jsonFuel] at hf; omega⟩
    rw [Json.wf] at hwf
    cases hd : s.data with
    | nil => rw [numTokOk.eq_def, hd] at hwf; simp at hwf
    | cons c cs =>
      rw [numTokOk.eq_def, hd] at hwf
      simp only [Bool.and_eq_true, List.all_cons] at hwf
      have hmar : jsonMarshal (Json.jnum s) = c :: cs := by rw [jsonMarshal, hd]
      rw [hmar, List.cons_append, parseVal_num f2 c (cs ++ rest) hwf.1]
      have ht := takeWhile_num_append cs rest hwf.2.2 hb
      rw [ht.1, ht.2, ← hd]
  | Json.jstr s, f, rest, hf, _, _ => by
    obtain ⟨f2, rfl⟩ : ∃ f2, f = f2 + 1 := ⟨f - 1, by rw [jsonFuel] at hf; omega⟩
    have hmar : jsonMarshal (Json.jstr s) ++ rest = '"' :: (escList s.data ++ '"' :: rest) := by
      rw [jsonMarshal]
      simp
    rw [hmar, parseVal_str f2 _ (s.data, rest) (parseStrBody_escList s.data rest)]
  | Json.jarr JsonList.nil, f, rest, hf, _, _ => by
    obtain ⟨f2, rfl⟩ : ∃ f2, f = f2 + 1 := ⟨f - 1, by rw [jsonFuel] at hf; omega⟩
    have hmar : jsonMarshal (Json.jarr JsonList.nil) ++ rest = '[' :: (']' :: rest) := by
      rw [jsonMarshal, marshalElems]
      simp
    rw [hmar, parseVal_arr_empty f2 _ rest (skipWS_not_ws ']' rest (by decide))]
  | Json.jarr (JsonList.cons y ys), f, rest, hf, hwf, hb => by
    obtain ⟨f2, rfl⟩ : ∃ f2, f = f2 + 1 := ⟨f - 1, by rw [jsonFuel] at hf; omega⟩
    have hfx : elemsFuel (JsonList.cons y ys) ≤ f2 := by rw [jsonFuel] at hf; omega
    rw [Json.wf, JsonList.wf, Bool.and_eq_true] at hwf
    obtain ⟨c0, l0, hm0, hw0, hne0, _⟩ := jsonMarshal_head y hwf.1
    have hmar : jsonMarshal (Json.jarr (JsonList.cons y ys)) ++ rest
        = '[' :: (marshalElems (JsonList.cons y ys) ++ ']' :: rest) := by
      rw [jsonMarshal]
      simp
    have hshape : marshalElems (JsonList.cons y ys) ++ ']' :: rest
        = c0 :: (l0 ++ (sepElems ys ++ ']' :: rest)) := by
      rw [marshalElems, hm0]
      simp
    rw [hmar, hshape,
      parseVal_arr_cons f2 _ c0 _ (skipWS_not_ws c0 _ hw0) hne0, ← hshape]
    exact parseElems_marshal y ys f2 rest hfx hwf.1 hwf.2 hb
  | Json.jobj JsonMembers.nil, f, rest, hf, _, _ => by
    obtain ⟨f2, rfl⟩ : ∃ f2, f = f2 + 1 := ⟨f - 1, by rw [jsonFuel] at hf; omega⟩
    have hmar : jsonMarshal (Json.jobj JsonMembers.nil) ++ rest = '{' :: ('}' :: rest) := by
      rw [jsonMarshal, marshalMembers]
      simp
    rw [hmar, parseVal_obj_empty f2 _ rest (skipWS_not_ws '}' rest (by decide))]
  | Json.jobj (JsonMembers.cons k v kvs2), f, rest, hf, hwf, hb => by
    obtain ⟨f2, rfl⟩ : ∃ f2, f = f2 + 1 := ⟨f - 1, by rw [jsonFuel] at hf; omega⟩
    have hfx : membersFuel (JsonMembers.cons k v kvs2) ≤ f2 := by rw [jsonFuel] at hf; omega
    rw [Json.wf, JsonMembers.wf, Bool.and_eq_true] at hwf
    have hmar : jsonMarshal (Json.jobj (JsonMembers.cons k v kvs2)) ++ rest
        = '{' :: (marshalMembers (JsonMembers.cons k v kvs2) ++ '}' :: rest) := by
      rw [jsonMarshal]
      simp
    have hshape : marshalMembers (JsonMembers.cons k v kvs2) ++ '}' :: rest
        = '"' :: (escList k.data ++ '"' :: (':' :: (jsonMarshal v ++ (sepMembers kvs2 ++ '}' :: rest)))) := by
      rw [marshalMembers]
      simp
    rw [hmar, hshape,
      parseVal_obj_cons f2 _ '"' _ (skipWS_not_ws '"' _ (by decide)) (by decide), ← hshape]
    exact parseMembers_marshal k v kvs2 f2 rest hfx hwf.1 hwf.2 hb
termination_by x f rest hf hwf hb => sizeOf x
decreasing_by all_goals (simp_wf <;> omega)
/-- Round trip for the element list of a nonempty array. -/
theorem parseElems_marshal : ∀ (y : Json) (ys : JsonList) (f : Nat) (rest : List Char),
    elemsFuel (JsonList.cons y ys) ≤ f → Json.wf y = true →
    JsonList.wf ys = true → numBoundary rest = true →
    parseElems f (marshalElems (JsonList.cons y ys) ++ ']' :: rest)
      = some (Json.jarr (JsonList.cons y ys), rest)
  | y, JsonList.nil, f, rest, hf, hwy, _, hb => by
    obtain ⟨f3, rfl⟩ : ∃ f3, f = f3 + 1 := ⟨f - 1, by rw [elemsFuel] at hf; omega⟩
    have hfy : jsonFuel y ≤ f3 := by rw [elemsFuel] at hf; omega
    have hm : marshalElems (JsonList.cons y JsonList.nil) ++ ']' :: rest
        = jsonMarshal y ++ (']' :: rest) := by
      rw [marshalElems, sepElems]
      simp
    rw [hm]
    have hv := parseVal_marshal y f3 (']' :: rest) hfy hwy (by rfl)
    exact parseElems_last f3 _ y (']' :: rest) rest hv (skipWS_not_ws ']' rest (by decide))
  | y, JsonList.cons y2 ys2, f, rest, hf, hwy, hws, hb => by
    obtain ⟨f3, rfl⟩ : ∃ f3, f = f3 + 1 := ⟨f - 1, by rw [elemsFuel] at hf; omega⟩
    have hfy : jsonFuel y ≤ f3 := by rw [elemsFuel] at hf; omega
    have hfs : elemsFuel (JsonList.cons y2 ys2) ≤ f3 := by rw [elemsFuel] at hf; omega
    rw [JsonList.wf, Bool.and_eq_true] at hws
    have hm : marshalElems (JsonList.cons y (JsonList.cons y2 ys2)) ++ ']' :: rest
        = jsonMarshal y ++ (',' :: (marshalElems (JsonList.cons y2 ys2) ++ ']' :: rest)) := by
      rw [marshalElems, sepElems, marshalElems]
      simp
    rw [hm]
    have hv := parseVal_marshal y f3
      (',' :: (marshalElems (JsonList.cons y2 ys2) ++ ']' :: rest)) hfy hwy (by rfl)
    exact parseElems_cons f3 _ y _ (marshalElems (JsonList.cons y2 ys2) ++ ']' :: rest) rest
      (JsonList.cons y2 ys2) hv (skipWS_not_ws ',' _ (by decide))
      (parseElems_marshal y2 ys2 f3 rest hfs hws.1 hws.2 hb)
termination_by y ys f rest hf hwy hws hb => sizeOf (JsonList.cons y ys)
decreasing_by all_goals (simp_wf <;> omega)
/-- Round trip for the member list of a nonempty object. -/
theorem parseMembers_marshal : ∀ (k : String) (v : Json) (kvs : JsonMembers) (f : Nat)
    (rest : List Char),
    membersFuel (JsonMembers.cons k v kvs) ≤ f → Json.wf v = true →
    JsonMembers.wf kvs = true → numBoundary rest = true →
    parseMembers f (marshalMembers (JsonMembers.cons k v kvs) ++ '}' :: rest)
      = some (Json.jobj (JsonMembers.cons k v kvs), rest)
  | k, v, JsonMembers.nil, f, rest, hf, hwv, _, hb => by
    obtain ⟨f3, rfl⟩ : ∃ f3, f = f3 + 1 := ⟨f - 1, by rw [membersFuel] at hf; omega⟩
    have hfv : jsonFuel v ≤ f3 := by rw [membersFuel] at hf; omega
    have hshape : marshalMembers (JsonMembers.cons k v JsonMembers.nil) ++ '}' :: rest
        = '"' :: (escList k.data ++ '"' :: (':' :: (jsonMarshal v ++ ('}' :: rest)))) := by
      rw [marshalMembers, sepMembers]
      simp
    rw [hshape]
    have hkey := parseStrBody_escList k.data (':' :: (jsonMarshal v ++ ('}' :: rest)))
    have hv := parseVal_marshal v f3 ('}' :: rest) hfv hwv (by rfl)
    have h := parseMembers_last f3 _ k.data v _ _ _ ('}' :: rest) rest
      (skipWS_not_ws '"' _ (by decide)) hkey (skipWS_not_ws ':' _ (by decide)) hv
      (skipWS_not_ws '}' rest (by decide))
    simpa using h
  | k, v, JsonMembers.cons k2 v2 kvs2, f, rest, hf, hwv, hws, hb => by
    obtain ⟨f3, rfl⟩ : ∃ f3, f = f3 + 1 := ⟨f - 1, by rw [membersFuel] at hf; omega⟩
    have hfv : jsonFuel v ≤ f3 := by rw [membersFuel] at hf; omega
    have hfs : membersFuel (JsonMembers.cons k2 v2 kvs2) ≤ f3 := by rw [membersFuel] at hf; omega
    rw [JsonMembers.wf, Bool.and_eq_true] at hws
    have hshape : marshalMembers (JsonMembers.cons k v (JsonMembers.cons k2 v2 kvs2)) ++ '}' :: rest
        = '"' :: (escList k.data ++ '"' :: (':' :: (jsonMarshal v ++
            (',' :: (marshalMembers (JsonMembers.cons k2 v2 kvs2) ++ '}' :: rest))))) := by
      rw [marshalMembers, sepMembers, marshalMembers]
      simp
    rw [hshape]
    have hkey := parseStrBody_escList k.data (':' :: (jsonMarshal v ++
      (',' :: (marshalMembers (JsonMembers.cons k2 v2 kvs2) ++ '}' :: rest))))
    have hv := parseVal_marshal v f3
      (',' :: (marshalMembers (JsonMembers.cons k2 v2 kvs2) ++ '}' :: rest)) hfv hwv (by rfl)
    have hrec := parseMembers_marshal k2 v2 kvs2 f3 rest hfs hws.1 hws.2 hb
    have h := parseMembers_cons f3 _ k.data v _ _ _ _
      (marshalMembers (JsonMembers.cons k2 v2 kvs2) ++ '}' :: rest) rest
      (JsonMembers.cons k2 v2 kvs2)
      (skipWS_not_ws '"' _ (by decide)) hkey (skipWS_not_ws ':' _ (by decide)) hv
      (skipWS_not_ws ',' _ (by decide)) hrec
    simpa using h
termination_by k v kvs f rest hf hwv hws hb => sizeOf (JsonMembers.cons k v kvs)
decreasing_by all_goals (simp_wf <;> omega)
end

mutual
/-- The fuel a value needs is within its marshalled length plus one. -/
theorem jsonFuel_le : ∀ x : Json, jsonFuel x ≤ (jsonMarshal x).length + 1
  | Json.null => by rw [jsonFuel]; rw [jsonMarshal]; simp
  | Json.jbool true => by rw [jsonFuel]; rw [jsonMarshal]; simp
  | Json.jbool false => by rw [jsonFuel]; rw [jsonMarshal]; simp
  | Json.jnum s => by rw [jsonFuel]; omega
  | Json.jstr s => by rw [jsonFuel]; omega
  | Json.jarr JsonList.nil => by
    rw [jsonFuel, elemsFuel, jsonMarshal, marshalElems]
    simp
  | Json.jarr (JsonList.cons y ys) => by
    have h1 := jsonFuel_le y
    have h2 := elemsFuel_le_sep ys
    rw [jsonFuel, elemsFuel, jsonMarshal, marshalElems]
    simp only [List.length_cons, List.length_append]
    omega
  | Json.jobj JsonMembers.nil => by
    rw [jsonFuel, membersFuel, jsonMarshal, marshalMembers]
    simp
  | Json.jobj (JsonMembers.cons k v kvs) => by
    have h1 := jsonFuel_le v
    have h2 := membersFuel_le_sep kvs
    rw [jsonFuel, membersFuel, jsonMarshal, marshalMembers]
    simp only [List.length_cons, List.length_append]
    omega
termination_by x => sizeOf x
decreasing_by all_goals (simp_wf <;> omega)
/-- The fuel a tail of elements needs is within its marshalled length
plus one. -/
theorem elemsFuel_le_sep : ∀ xs : JsonList, elemsFuel xs ≤ (sepElems xs).length + 1
  | JsonList.nil => by rw [elemsFuel, sepElems]; simp
  | JsonList.cons y ys => by
    have h1 := jsonFuel_le y
    have h2 := elemsFuel_le_sep ys
    rw [elemsFuel, sepElems]
    simp only [List.length_cons, List.length_append]
    omega
termination_by xs => sizeOf xs
decreasing_by all_goals (simp_wf <;> omega)
/-- The fuel a tail of members needs is within its marshalled length
plus one. -/
theorem membersFuel_le_sep : ∀ kvs : JsonMembers, membersFuel kvs ≤ (sepMembers kvs).length + 1
  | JsonMembers.nil => by rw [membersFuel, sepMembers]; simp
  | JsonMembers.cons k v kvs => by
    have h1 := jsonFuel_le v
    have h2 := membersFuel_le_sep kvs
    rw [membersFuel, sepMembers]
    simp only [List.length_cons, List.length_append]
    omega
termination_by kvs => sizeOf kvs
decreasing_by all_goals (simp_wf <;> omega)
end

/-- `json.Unmarshal` inverts `json.Marshal` on well-formed values. -/
theorem jsonUnmarshal_marshal (x : Json) (hwf : Json.wf x = true) :
    jsonUnmarshalChars (jsonMarshal x) = some x := by
  rw [jsonUnmarshalChars]
  have h := parseVal_marshal x ((jsonMarshal x).length + 1) []
    (jsonFuel_le x) hwf (by rfl)
  rw [List.append_nil] at h
  rw [h]
  rfl

/-- When the text holds no action opener, `splitAtOpen` returns it
whole. -/
theorem splitAtOpen_none (cs : List Char) : (splitAtOpen cs).2 = none → (splitAtOpen cs).1 = cs := by
  induction cs with
  | nil => intro _; rfl
  | cons c rest ih =>
    cases rest with
    | nil => intro _; rfl
    | cons d rest2 =>
      intro h
      rw [splitAtOpen] at h ⊢
      by_cases hcd : c = '{' ∧ d = '{'
      · rw [if_pos hcd] at h; simp at h
      · rw [if_neg hcd] at h ⊢
        simp only at h ⊢
        rw [ih h]

/-- A template whose text holds no `\x7b\x7b` parses to a single literal
piece. -/
theorem tmplParse_no_action (cs : List Char) (h : noOpenAction cs = true) :
    tmplParseChars cs = Except.ok [TmplPiece.lit cs] := by
  rw [noOpenAction] at h
  rw [tmplParseChars, show cs.length + 1 = Nat.succ cs.length from rfl, parsePieces]
  cases hs : splitAtOpen cs with
  | mk pre o =>
    rw [hs] at h
    cases o with
    | some v => simp at h
    | none =>
      have hpre : pre = cs := by
        have h2 := splitAtOpen_none cs (by rw [hs])
        rw [hs] at h2
        exact h2
      rw [hpre]

/-- Executing a single literal piece returns the text unchanged. -/
theorem tmplExec_single_lit (cs : List Char) (params : List (String × String)) (nowStr : String) :
    tmplExecPieces [TmplPiece.lit cs] params nowStr = Except.ok cs := by
  rw [tmplExecPieces, tmplExecPieces]
  simp

/-- Claim C8: for an endpoint whose selected response body marshals to
text without a template action opener, rendering is idempotent on the
body — `GenerateResponse` succeeds for every ParameterMap and returns a
response whose body is structurally equal to the stored body, with
status, headers and delay passed through unchanged. (`Json.wf` asks
only that stored number tokens are valid decimal texts, which holds of
everything `encoding/json` produces.) -/
theorem render_idempotent_no_placeholders :
    ∀ (endpoint : Endpoint) (params : List (String × String)) (nowStr : String)
      (response : Response),
      lookupStr endpoint.responses endpoint.defaultResponse = some response →
      Json.wf response.body = true →
      noOpenAction (jsonMarshal response.body) = true →
      ∃ r, GenerateResponse endpoint params nowStr = Except.ok r ∧
        r.body = response.body ∧ r.status = response.status ∧
        r.headers = response.headers ∧ r.delay = response.delay := by
  intro endpoint params nowStr response hlook hwf hna
  have hun := jsonUnmarshal_marshal response.body hwf
  have hparse := tmplParse_no_action (jsonMarshal response.body) hna
  have hproc : processResponseBody response.body params nowStr = Except.ok response.body := by
    simp only [processResponseBody, hparse, tmplExec_single_lit, hun]
  simp only [GenerateResponse, hlook, hproc]
  exact ⟨_, rfl, rfl, rfl, rfl, rfl⟩

/-- Witness for C8 on a concrete placeholder-free endpoint. -/
theorem render_idempotent_no_placeholders_witness :
    ∃ r, GenerateResponse
        ⟨"simple-endpoint", "GET", "/api/simple", true, "standard",
          [("standard", ⟨200, [("Content-Type", "application/json")],
            Json.jobj (JsonMembers.cons "message" (Json.jstr "Hello, world!") JsonMembers.nil), 0⟩)]⟩
        [("id", "123")] "2023-05-13T14:30:00Z" = Except.ok r ∧
      r.body = (⟨200, [("Content-Type", "application/json")],
            Json.jobj (JsonMembers.cons "message" (Json.jstr "Hello, world!") JsonMembers.nil), 0⟩ : Response).body ∧
      r.status = (⟨200, [("Content-Type", "application/json")],
            Json.jobj (JsonMembers.cons "message" (Json.jstr "Hello, world!") JsonMembers.nil), 0⟩ : Response).status ∧
      r.headers = (⟨200, [("Content-Type", "application/json")],
            Json.jobj (JsonMembers.cons "message" (Json.jstr "Hello, world!") JsonMembers.nil), 0⟩ : Response).headers ∧
      r.delay = (⟨200, [("Content-Type", "application/json")],
            Json.jobj (JsonMembers.cons "message" (Json.jstr "Hello, world!") JsonMembers.nil), 0⟩ : Response).delay :=
  render_idempotent_no_placeholders _ _ _ _ (by decide) (by decide) (by decide)
